import Mathlib

/-!
Shallow embedding of the `multisig_ecdsa` repository.

The multisig domain lives in `src/domain/message.rs` and
`src/domain/multisig.rs`; the address codec in `src/crypto/mod.rs`
(`bt_addr_from_pk`, `pkh_from_bt_addr`) together with the `base58` crate's
`ToBase58`/`FromBase58` implementations.

External cryptographic primitives (SHA-256, secp256k1 ECDSA, hash160) are
opaque to the program: they are modelled as abstract function parameters,
while everything the repository itself computes (binding lookup and update,
quorum arithmetic, the address byte layout and the base58 conversion) is
embedded concretely.

Machine integers: all the `usize` arithmetic in the embedded code (lengths,
counts) stays far below any overflow boundary, so `Nat` is used directly.
-/

/-- Errors of the external `secp256k1` library, treated as opaque tokens.
`incorrectSignature` is the variant produced by a failed ECDSA verification,
`invalidMessage` by `Message::from_digest_slice` on a digest that is not
32 bytes; all remaining variants are collapsed into `other`. -/
inductive SecpError
  | incorrectSignature
  | invalidMessage
  | other (code : Nat)
deriving DecidableEq

/-- A compressed secp256k1 public key, abstracted to an opaque identity
token; the source compares keys by serialized bytes
(`PublicKey::eq_fast_unstable`), which this equality models. -/
abbrev PublicKey := Nat

/-- An ECDSA signature, abstracted to an opaque token. -/
abbrev Sig := Nat

/-- A `secp256k1::Keypair`: a private scalar together with its derived
public key. -/
structure Keypair where
  public_key : PublicKey
  secret_key : Nat
deriving DecidableEq

/-- The ambient cryptographic backend: the SHA-256 hash used by
`crypto::sign` / `crypto::verify`, and the secp256k1 ECDSA operations on a
32-byte digest (`sign_ecdsa` is total in the library, `verify_ecdsa`
returns a result). -/
structure Crypto where
  sha256 : List Nat → List Nat
  sign_ecdsa : List Nat → Nat → Sig
  verify_ecdsa : List Nat → Sig → PublicKey → Except SecpError Unit

/-- Embeds `crypto::sign` (src/crypto/mod.rs): hash the message with SHA-256,
build a digest message (`Message::from_digest_slice` fails with an error
unless the digest is exactly 32 bytes), then ECDSA-sign the digest. -/
def crypto.sign (c : Crypto) (msg : List Nat) (seckey : Nat) :
    Except SecpError Sig :=
  let digest := c.sha256 msg
  if digest.length = 32 then .ok (c.sign_ecdsa digest seckey)
  else .error .invalidMessage

/-- Embeds `crypto::verify` (src/crypto/mod.rs): hash the message with SHA-256,
build the digest message, then ECDSA-verify the signature against the
public key. -/
def crypto.verify (c : Crypto) (msg : List Nat) (signature : Sig)
    (pubkey : PublicKey) : Except SecpError Unit :=
  let digest := c.sha256 msg
  if digest.length = 32 then c.verify_ecdsa digest signature pubkey
  else .error .invalidMessage

/-- Embeds `multisig::Error` (src/domain/multisig.rs). The spec calls
`publicKeyNotFound` "KeyNotAssigned". -/
inductive MultisigError
  | publicKeyNotFound
  | secp256k1 (e : SecpError)
  | notEnoughSignatures (provided required : Nat)
deriving DecidableEq

/-- Embeds `Multisig` (src/domain/multisig.rs): an ordered vector of
(public key, optional signature) bindings. -/
abbrev Multisig := List (PublicKey × Option Sig)

/-- Embeds `Multisig::new`: one binding per supplied key, each without a
signature. -/
def Multisig.new (pubkeys : List PublicKey) : Multisig :=
  pubkeys.map (fun pk => (pk, none))

/-- Embeds `Multisig::sign`: find the first binding whose key equals the key
pair's public key (`iter_mut().find`); if none exists fail with
`PublicKeyNotFound`; if it already holds a signature succeed without
change; otherwise produce a signature with `crypto::sign` and store it
(a `crypto::sign` error is propagated by `?` before any mutation).
The Rust method mutates `&mut self`; here it returns the Rust result
paired with the state of `self` after the call. -/
def Multisig.sign (c : Crypto) (content : List Nat) (keypair : Keypair) :
    Multisig → Except MultisigError Unit × Multisig
  | [] => (.error .publicKeyNotFound, [])
  | (pk, s) :: rest =>
    if pk = keypair.public_key then
      match s with
      | some sg => (.ok (), (pk, some sg) :: rest)
      | none =>
        match crypto.sign c content keypair.secret_key with
        | .error e => (.error (.secp256k1 e), (pk, none) :: rest)
        | .ok sg => (.ok (), (pk, some sg) :: rest)
    else
      let r := Multisig.sign c content keypair rest
      (r.1, (pk, s) :: r.2)

/-- The `signatures` vector collected at the start of `Multisig::verify`:
the (key, signature) pairs of the bindings that hold a signature. -/
def Multisig.presentSignatures (m : Multisig) : List (PublicKey × Sig) :=
  m.filterMap (fun b => b.2.map (fun sg => (b.1, sg)))

/-- The verification loop at the end of `Multisig::verify`: check each
present pair with `crypto::verify`, propagating the first error by `?`. -/
def Multisig.checkAll (c : Crypto) (content : List Nat) :
    List (PublicKey × Sig) → Except MultisigError Unit
  | [] => .ok ()
  | (pk, sg) :: rest =>
    match crypto.verify c content sg pk with
    | .error e => .error (.secp256k1 e)
    | .ok _ => Multisig.checkAll c content rest

/-- Embeds `Multisig::verify`: collect the present signatures; if fewer than
`count_required` fail with `NotEnoughSignatures(present, required)`;
otherwise check every present pair against the content. -/
def Multisig.verify (c : Crypto) (content : List Nat) (count_required : Nat)
    (m : Multisig) : Except MultisigError Unit :=
  let signatures := Multisig.presentSignatures m
  if signatures.length < count_required then
    .error (.notEnoughSignatures signatures.length count_required)
  else
    Multisig.checkAll c content signatures

/-- Embeds `Message` (src/domain/message.rs). -/
structure Message where
  id : Nat
  content : List Nat
  signature : Multisig
  count_required : Nat

/-- Embeds `Message::new` (src/domain/message.rs): captures the content, sets
`count_required = required_signature_count.unwrap_or(pubkeys.len()).max(pubkeys.len())`,
builds the bindings with `Multisig::new`. The fresh `uuid::Uuid::new_v4()`
identifier is modelled by the extra `id` argument. -/
def Message.new (id : Nat) (content : List Nat) (pubkeys : List PublicKey)
    (required_signature_count : Option Nat) : Message :=
  { content := content
    count_required :=
      max (required_signature_count.getD pubkeys.length) pubkeys.length
    signature := Multisig.new pubkeys
    id := id }

/-- A sequence of `Multisig::sign` calls (each with its own content and key
pair), keeping only the resulting state. -/
def Multisig.signAll (c : Crypto) (calls : List (List Nat × Keypair))
    (m : Multisig) : Multisig :=
  calls.foldl (fun m call => (Multisig.sign c call.1 call.2 m).2) m

namespace messages

/-- The legacy `Message` of src/domain/messages.rs (used only by the stale
`storage/in_memory.rs`): its `Message::new` leaves `signatures` at
`Default::default()`, i.e. empty, ignoring the supplied keys. -/
structure Message where
  content : List Nat
  signatures : List (PublicKey × Option Sig)
  count_required : Nat

/-- Embeds `Message::new` (src/domain/messages.rs). -/
def Message.new (content : List Nat) (pubkeys : List PublicKey)
    (required_signature_count : Option Nat) : Message :=
  { content := content
    signatures := []
    count_required :=
      max (required_signature_count.getD pubkeys.length) pubkeys.length }

end messages

/-- A concrete cryptographic backend used to evaluate the development on
explicit inputs: the digest is a constant 32-byte string, a signature is
the signing secret key itself, and verification accepts a signature equal
to the public key (the concrete key pairs used on such inputs have equal
halves). -/
def cw : Crypto :=
  { sha256 := fun _ => List.replicate 32 0
    sign_ecdsa := fun _ sk => sk
    verify_ecdsa := fun _ sg pk =>
      if sg = pk then .ok () else .error .incorrectSignature }

/-! The address codec: `bt_addr_from_pk` / `pkh_from_bt_addr` from
src/crypto/mod.rs, on top of the `base58` crate's `ToBase58` and
`FromBase58`. Bytes are `Nat` below 256; the big-number loops of the crate
are modelled by their base-conversion semantics. -/

/-- The base58 alphabet of the `base58` crate. -/
def b58Alphabet : List Char :=
  "123456789ABCDEFGHJKLMNPQRSTUVWXYZabcdefghijkmnopqrstuvwxyz".toList

/-- The character encoding a base-58 digit. -/
def b58Char (d : Nat) : Char := b58Alphabet.getD d '1'

/-- The base-58 digit of a character, `none` outside the alphabet
(the crate's `B58_DIGITS_MAP` yielding 255 / the high-bit check). -/
def b58Digit (ch : Char) : Option Nat :=
  b58Alphabet.findIdx? (fun x => x = ch)

/-- The big-endian base-`b` value of a digit string: the accumulator loop
shared by the crate's encoder (base 256) and decoder (base 58). -/
def beVal (b : Nat) (l : List Nat) : Nat :=
  l.foldl (fun acc d => acc * b + d) 0

/-- Little-endian base-`b` digit expansion, with explicit fuel so that the
recursion is structural (the fuel is set to the number itself, which always
suffices). -/
def digitsFuel (b : Nat) : Nat → Nat → List Nat
  | 0, _ => []
  | fuel + 1, n => if n = 0 then [] else n % b :: digitsFuel b fuel (n / b)

/-- The big-endian base-`b` digit string of `n`, most significant digit
first, with no leading zeros (`[]` for 0). -/
def natToBE (b n : Nat) : List Nat := (digitsFuel b n n).reverse

/-- Embeds `ToBase58 for [u8]` of the `base58` crate: each leading zero byte
becomes a leading '1'; the remaining bytes, read as one big-endian number,
are written out in base 58. -/
def to_base58 (bytes : List Nat) : List Char :=
  let zcount := (bytes.takeWhile (fun x => x = 0)).length
  List.replicate zcount '1'
    ++ (natToBE 58 (beVal 256 (bytes.drop zcount))).map b58Char

/-- Embeds `FromBase58 for str` of the `base58` crate: fails on any character
outside the alphabet, and when the decoded number needs more than the
crate's 132-byte buffer; otherwise each leading '1' becomes a zero byte,
followed by the big-endian bytes of the base-58 number formed by the
remaining characters. -/
def from_base58 (s : List Char) : Option (List Nat) :=
  if s.all (fun ch => (b58Digit ch).isSome) then
    let zcount := (s.takeWhile (fun ch => ch = '1')).length
    let n := beVal 58 ((s.drop zcount).map (fun ch => (b58Digit ch).getD 0))
    if 256 ^ 132 ≤ n then none
    else some (List.replicate zcount 0 ++ natToBE 256 n)
  else none

/-- Embeds `bt_addr_from_pk` (src/crypto/mod.rs), with the external hashes
abstracted: prepend the version byte `0x00` to `hash160` of the serialized
public key (the `pk` argument stands for `pubkey.serialize()`), append the
first 4 bytes of the double SHA-256 of the 21-byte prefix, and
base58-encode the 25-byte result. -/
def bt_addr_from_pk (hash160 sha256 : List Nat → List Nat)
    (pk : List Nat) : List Char :=
  let with_version := 0 :: hash160 pk
  let checksum := (sha256 (sha256 with_version)).take 4
  to_base58 (with_version ++ checksum)

/-- The four error kinds of `pkh_from_bt_addr`; the source reports them as
the distinct strings "Invalid base58 encoding", "Invalid address length",
"Not a P2PKH address" and "Invalid checksum". -/
inductive AddrError
  | invalidEncoding
  | invalidLength
  | unsupportedVersion
  | checksumMismatch
deriving DecidableEq

/-- Embeds `pkh_from_bt_addr` (src/crypto/mod.rs): base58-decode, then check the
length is 25, then the version byte is `0x00`, then the 4-byte checksum;
on success return bytes 1..21, the 20-byte public key hash. -/
def pkh_from_bt_addr (sha256 : List Nat → List Nat) (address : List Char) :
    Except AddrError (List Nat) :=
  match from_base58 address with
  | none => .error .invalidEncoding
  | some decoded =>
    if decoded.length ≠ 25 then .error .invalidLength
    else if decoded.headI ≠ 0 then .error .unsupportedVersion
    else if decoded.drop 21 ≠ (sha256 (sha256 (decoded.take 21))).take 4 then
      .error .checksumMismatch
    else .ok ((decoded.drop 1).take 20)

/-! Helper lemmas about `Multisig.sign`. -/

/-- Fact: `Multisig::sign` never changes the number of bindings. -/
theorem Multisig.sign_length (c : Crypto) (content : List Nat) (kp : Keypair) :
    ∀ m : Multisig, ((Multisig.sign c content kp m).2).length = m.length := by
  intro m
  induction m with
  | nil => rfl
  | cons b rest ih =>
    obtain ⟨pk, s⟩ := b
    by_cases h : pk = kp.public_key
    · cases s with
      | some sg => simp [Multisig.sign, h]
      | none =>
        cases hc : crypto.sign c content kp.secret_key with
        | error e => simp [Multisig.sign, h, hc]
        | ok sg => simp [Multisig.sign, h, hc]
    · simp [Multisig.sign, h, ih]

/-- A sequence of `Multisig::sign` calls never changes the number of
bindings. -/
theorem Multisig.signAll_length (c : Crypto) (calls : List (List Nat × Keypair)) :
    ∀ m : Multisig, (Multisig.signAll c calls m).length = m.length := by
  induction calls with
  | nil => intro m; rfl
  | cons call rest ih =>
    intro m
    have h1 : Multisig.signAll c (call :: rest) m
        = Multisig.signAll c rest ((Multisig.sign c call.1 call.2 m).2) := rfl
    rw [h1, ih, Multisig.sign_length]

/-- Fact: `Multisig::new` creates exactly one binding per key. -/
theorem Multisig.new_length (pubkeys : List PublicKey) :
    (Multisig.new pubkeys).length = pubkeys.length :=
  List.length_map _ _

/-- When no binding key equals the key pair's public key, `Multisig::sign`
fails with `PublicKeyNotFound` and leaves the state unchanged. -/
theorem Multisig.sign_not_assigned (c : Crypto) (content : List Nat)
    (kp : Keypair) :
    ∀ m : Multisig, (∀ b ∈ m, b.1 ≠ kp.public_key) →
      Multisig.sign c content kp m = (.error .publicKeyNotFound, m) := by
  intro m
  induction m with
  | nil => intro _; rfl
  | cons b rest ih =>
    intro h
    obtain ⟨pk, s⟩ := b
    have hpk : pk ≠ kp.public_key := h (pk, s) (List.mem_cons_self _ _)
    have hrest : ∀ b ∈ rest, b.1 ≠ kp.public_key :=
      fun b hb => h b (List.mem_cons_of_mem _ hb)
    simp [Multisig.sign, hpk, ih hrest]

/-- A binding that already holds a signature is preserved, at its position,
by any `Multisig::sign` call. -/
theorem Multisig.sign_keeps_some (c : Crypto) (content : List Nat) (kp : Keypair) :
    ∀ (m : Multisig) (n : Nat) (pk : PublicKey) (s : Sig),
      m[n]? = some (pk, some s) →
      ((Multisig.sign c content kp m).2)[n]? = some (pk, some s) := by
  intro m
  induction m with
  | nil => intro n pk s h; simp at h
  | cons b rest ih =>
    intro n pk s h
    obtain ⟨pk0, s0⟩ := b
    by_cases hpk : pk0 = kp.public_key
    · cases s0 with
      | some sg => simpa [Multisig.sign, hpk] using h
      | none =>
        cases n with
        | zero => simp at h
        | succ n =>
          cases hc : crypto.sign c content kp.secret_key with
          | error e => simpa [Multisig.sign, hpk, hc] using h
          | ok sg => simpa [Multisig.sign, hpk, hc] using h
    · cases n with
      | zero => simpa [Multisig.sign, hpk] using h
      | succ n =>
        have := ih n pk s (by simpa using h)
        simpa [Multisig.sign, hpk] using this

/-- Fact: `Multisig::sign` never changes the key stored at any position. -/
theorem Multisig.sign_fst (c : Crypto) (content : List Nat) (kp : Keypair) :
    ∀ (m : Multisig) (n : Nat),
      (((Multisig.sign c content kp m).2)[n]?).map Prod.fst
        = (m[n]?).map Prod.fst := by
  intro m
  induction m with
  | nil => intro n; rfl
  | cons b rest ih =>
    intro n
    obtain ⟨pk0, s0⟩ := b
    by_cases hpk : pk0 = kp.public_key
    · cases s0 with
      | some sg => simp [Multisig.sign, hpk]
      | none =>
        cases hc : crypto.sign c content kp.secret_key with
        | error e => simp [Multisig.sign, hpk, hc]
        | ok sg =>
          cases n with
          | zero => simp [Multisig.sign, hpk, hc]
          | succ n => simp [Multisig.sign, hpk, hc]
    · cases n with
      | zero => simp [Multisig.sign, hpk]
      | succ n => simp [Multisig.sign, hpk, ih n]

/-- A binding whose key differs from the signing key is untouched, at its
position, by `Multisig::sign`. -/
theorem Multisig.sign_untouched_of_ne (c : Crypto) (content : List Nat)
    (kp : Keypair) :
    ∀ (m : Multisig) (n : Nat) (q : PublicKey) (s : Option Sig),
      m[n]? = some (q, s) → q ≠ kp.public_key →
      ((Multisig.sign c content kp m).2)[n]? = m[n]? := by
  intro m
  induction m with
  | nil => intro n q s h _; simp at h
  | cons b rest ih =>
    intro n q s h hq
    obtain ⟨pk0, s0⟩ := b
    by_cases hpk : pk0 = kp.public_key
    · cases s0 with
      | some sg => simp [Multisig.sign, hpk]
      | none =>
        cases n with
        | zero =>
          simp only [List.getElem?_cons_zero, Option.some.injEq,
            Prod.mk.injEq] at h
          exact (hq (h.1.symm.trans hpk)).elim
        | succ n =>
          cases hc : crypto.sign c content kp.secret_key with
          | error e => simp [Multisig.sign, hpk, hc]
          | ok sg => simp [Multisig.sign, hpk, hc]
    · cases n with
      | zero => simp [Multisig.sign, hpk]
      | succ n =>
        have := ih n q s (by simpa using h) hq
        simpa [Multisig.sign, hpk] using this

/-- If a key occurs at an earlier position `ii`, the binding at the later
position `jj` holding the same key is untouched by `Multisig::sign` (the
`find` in the source stops at the first match). -/
theorem Multisig.sign_later_dup (c : Crypto) (content : List Nat) (kp : Keypair) :
    ∀ (m : Multisig) (ii jj : Nat) (pk0 : PublicKey) (s0 s1 : Option Sig),
      ii < jj → m[ii]? = some (pk0, s0) → m[jj]? = some (pk0, s1) →
      ((Multisig.sign c content kp m).2)[jj]? = some (pk0, s1) := by
  intro m
  induction m with
  | nil => intro ii jj pk0 s0 s1 _ h _; simp at h
  | cons b rest ih =>
    intro ii jj pk0 s0 s1 hij hi hj
    obtain ⟨pk, s⟩ := b
    obtain ⟨jj, rfl⟩ : ∃ j, jj = j + 1 := ⟨jj - 1, by omega⟩
    by_cases hpk : pk = kp.public_key
    · cases s with
      | some sg => simpa [Multisig.sign, hpk] using hj
      | none =>
        cases hc : crypto.sign c content kp.secret_key with
        | error e => simpa [Multisig.sign, hpk, hc] using hj
        | ok sg => simpa [Multisig.sign, hpk, hc] using hj
    · cases ii with
      | zero =>
        simp only [List.getElem?_cons_zero, Option.some.injEq,
          Prod.mk.injEq] at hi
        have hq : pk0 ≠ kp.public_key := fun he => hpk (hi.1.trans he)
        have hrest : rest[jj]? = some (pk0, s1) := by simpa using hj
        have := Multisig.sign_untouched_of_ne c content kp rest jj pk0 s1 hrest hq
        rw [hrest] at this
        simpa [Multisig.sign, hpk] using this
      | succ ii =>
        have := ih ii jj pk0 s0 s1 (by omega) (by simpa using hi)
          (by simpa using hj)
        simpa [Multisig.sign, hpk] using this

/-- The multi-call version of `Multisig.sign_later_dup`: across any sequence
of `Multisig::sign` calls, an unsigned binding whose key already occurs at
an earlier position stays unsigned. -/
theorem Multisig.signAll_later_dup (c : Crypto) :
    ∀ (calls : List (List Nat × Keypair)) (m : Multisig) (ii jj : Nat)
      (pk0 : PublicKey) (s0 : Option Sig),
      ii < jj → m[ii]? = some (pk0, s0) → m[jj]? = some (pk0, none) →
      (Multisig.signAll c calls m)[jj]? = some (pk0, none) := by
  intro calls
  induction calls with
  | nil => intro m ii jj pk0 s0 _ _ hj; exact hj
  | cons call rest ih =>
    intro m ii jj pk0 s0 hij hi hj
    have hstep : ((Multisig.sign c call.1 call.2 m).2)[jj]? = some (pk0, none) :=
      Multisig.sign_later_dup c call.1 call.2 m ii jj pk0 s0 none hij hi hj
    have hfst := Multisig.sign_fst c call.1 call.2 m ii
    rw [hi] at hfst
    obtain ⟨b, hb⟩ : ∃ b, ((Multisig.sign c call.1 call.2 m).2)[ii]? = some b := by
      cases hcase : ((Multisig.sign c call.1 call.2 m).2)[ii]? with
      | none => rw [hcase] at hfst; simp at hfst
      | some b => exact ⟨b, rfl⟩
    have hb1 : b.1 = pk0 := by
      rw [hb] at hfst
      simpa using hfst
    have hbi : ((Multisig.sign c call.1 call.2 m).2)[ii]? = some (pk0, b.2) := by
      rw [hb]
      cases b
      simp_all
    have hfold : Multisig.signAll c (call :: rest) m
        = Multisig.signAll c rest ((Multisig.sign c call.1 call.2 m).2) := rfl
    rw [hfold]
    exact ih _ ii jj pk0 b.2 hij hbi hstep

/-- The verification loop succeeds when every present pair verifies. -/
theorem Multisig.checkAll_ok (c : Crypto) (content : List Nat) :
    ∀ l : List (PublicKey × Sig),
      (∀ p ∈ l, crypto.verify c content p.2 p.1 = .ok ()) →
      Multisig.checkAll c content l = .ok () := by
  intro l
  induction l with
  | nil => intro _; rfl
  | cons p rest ih =>
    intro h
    obtain ⟨pk, sg⟩ := p
    have hp := h (pk, sg) (List.mem_cons_self _ _)
    simp [Multisig.checkAll, hp,
      ih (fun q hq => h q (List.mem_cons_of_mem _ hq))]

/-- The verification loop propagates the error of the first failing pair. -/
theorem Multisig.checkAll_first_error (c : Crypto) (content : List Nat) :
    ∀ (l : List (PublicKey × Sig)) (i : Nat) (hi : i < l.length) (e : SecpError),
      (∀ j (hj : j < i),
          crypto.verify c content (l.get ⟨j, Nat.lt_trans hj hi⟩).2
            (l.get ⟨j, Nat.lt_trans hj hi⟩).1 = .ok ()) →
      crypto.verify c content (l.get ⟨i, hi⟩).2 (l.get ⟨i, hi⟩).1 = .error e →
      Multisig.checkAll c content l = .error (.secp256k1 e) := by
  intro l
  induction l with
  | nil => intro i hi; exact absurd hi (by simp)
  | cons p rest ih =>
    intro i hi e hprev herr
    obtain ⟨pk, sg⟩ := p
    cases i with
    | zero =>
      have herr0 : crypto.verify c content sg pk = .error e := herr
      simp [Multisig.checkAll, herr0]
    | succ i =>
      have h0 : crypto.verify c content sg pk = .ok () := hprev 0 (Nat.succ_pos i)
      have hi' : i < rest.length := Nat.lt_of_succ_lt_succ hi
      have htail := ih i hi' e
        (fun j hj => hprev (j + 1) (Nat.succ_lt_succ hj))
        herr
      simp [Multisig.checkAll, h0, htail]

/-- A successful `Multisig::sign` call is idempotent: repeating it succeeds
and leaves the state unchanged. -/
theorem Multisig.sign_twice (c : Crypto) (content : List Nat) (kp : Keypair) :
    ∀ (m m1 : Multisig), Multisig.sign c content kp m = (.ok (), m1) →
      Multisig.sign c content kp m1 = (.ok (), m1) := by
  intro m
  induction m with
  | nil =>
    intro m1 h
    exact absurd (congrArg Prod.fst h) (by simp [Multisig.sign])
  | cons b rest ih =>
    intro m1 h
    obtain ⟨pk, s⟩ := b
    by_cases hpk : pk = kp.public_key
    · cases s with
      | some sg =>
        have hm1 : m1 = (pk, some sg) :: rest := by
          have := congrArg Prod.snd h
          simpa [Multisig.sign, hpk] using this.symm
        rw [hm1]
        simp [Multisig.sign, hpk]
      | none =>
        cases hc : crypto.sign c content kp.secret_key with
        | error e =>
          have := congrArg Prod.fst h
          simp [Multisig.sign, hpk, hc] at this
        | ok sg =>
          have hm1 : m1 = (pk, some sg) :: rest := by
            have := congrArg Prod.snd h
            simpa [Multisig.sign, hpk, hc] using this.symm
          rw [hm1]
          simp [Multisig.sign, hpk]
    · have h' : (Multisig.sign c content kp rest).1 = .ok ()
          ∧ (pk, s) :: (Multisig.sign c content kp rest).2 = m1 := by
        have := h
        simp only [Multisig.sign, if_neg hpk, Prod.mk.injEq] at this
        exact this
      have hr : Multisig.sign c content kp rest
          = (.ok (), (Multisig.sign c content kp rest).2) := by
        rw [← h'.1]
      have htail := ih _ hr
      rw [← h'.2]
      simp [Multisig.sign, if_neg hpk, htail]

/-- Unfolding equation for `Multisig::verify`. -/
theorem Multisig.verify_eq (c : Crypto) (content : List Nat) (req : Nat)
    (m : Multisig) :
    Multisig.verify c content req m
      = if (Multisig.presentSignatures m).length < req then
          .error (.notEnoughSignatures (Multisig.presentSignatures m).length req)
        else Multisig.checkAll c content (Multisig.presentSignatures m) := rfl

/-- Claim C3: for every content, key list and optional requested count,
`Message::new` stores `required_count =
max(requested.unwrap_or(len(pubkeys)), len(pubkeys))`; in particular, when
the count is omitted, it equals the number of supplied keys. -/
theorem c3_required_count_formula (id : Nat) (content : List Nat)
    (pubkeys : List PublicKey) (r : Option Nat) :
    (Message.new id content pubkeys r).count_required
        = max (r.getD pubkeys.length) pubkeys.length
      ∧ (Message.new id content pubkeys none).count_required
        = pubkeys.length :=
  ⟨rfl, by simp [Message.new]⟩

/-- Claim C2 counterexample: a message created with one key and requested
count `Some 2` stores `count_required = 2`, strictly more than its single
binding, so the stored required count is not always at most the number of
bindings. -/
theorem c2_counterexample :
    ¬ ((Message.new 0 [] [1] (some 2)).count_required
        ≤ (Message.new 0 [] [1] (some 2)).signature.length) := by
  decide

/-- Claim C2 (amended): at every observable state (after creation and after
any sequence of sign calls) the stored required count is greater than or
equal to the number of bindings: `Message::new` takes the max of the
requested count with the key count, so the quorum never falls below (but
may exceed) the number of assigned keys, and sign calls change neither the
count nor the number of bindings. -/
theorem c2_amended_required_ge_bindings (id : Nat) (content : List Nat)
    (pubkeys : List PublicKey) (r : Option Nat) (c : Crypto)
    (calls : List (List Nat × Keypair)) :
    (Multisig.signAll c calls
        (Message.new id content pubkeys r).signature).length
        = pubkeys.length
      ∧ pubkeys.length ≤ (Message.new id content pubkeys r).count_required := by
  constructor
  · rw [Multisig.signAll_length]
    exact Multisig.new_length pubkeys
  · exact le_max_right _ _

/-- Claim C4: the message returned by `Message::new` has exactly one
binding per supplied public key, in the supplied order, each initially
holding no signature; and no later `Multisig::sign` call resizes the
binding vector. -/
theorem c4_one_binding_per_key_never_resized (id : Nat) (content : List Nat)
    (pubkeys : List PublicKey) (r : Option Nat) (c : Crypto)
    (content2 : List Nat) (kp : Keypair) (m : Multisig) :
    (Message.new id content pubkeys r).signature
        = pubkeys.map (fun pk => (pk, none))
      ∧ ((Multisig.sign c content2 kp m).2).length = m.length :=
  ⟨rfl, Multisig.sign_length c content2 kp m⟩

/-- Claim C8: a successful sign call is idempotent (repeating it with the
same key pair succeeds and yields the same binding state), and a binding
whose signature is set is never overwritten or cleared by any subsequent
sign call with any key pair. -/
theorem c8_sign_idempotent_never_overwrites (c : Crypto) (content : List Nat)
    (kp : Keypair) (m : Multisig) :
    (∀ m1, Multisig.sign c content kp m = (.ok (), m1) →
        Multisig.sign c content kp m1 = (.ok (), m1))
      ∧ ∀ (kp2 : Keypair) (content2 : List Nat) (n : Nat) (pk : PublicKey)
          (s : Sig), m[n]? = some (pk, some s) →
          ((Multisig.sign c content2 kp2 m).2)[n]? = some (pk, some s) :=
  ⟨fun m1 h => Multisig.sign_twice c content kp m m1 h,
   fun kp2 content2 n pk s h =>
     Multisig.sign_keeps_some c content2 kp2 m n pk s h⟩

/-- Witness for C8: on one binding for key 1, the first sign call stores
signature 1; the repeated call succeeds with the same state. -/
theorem c8_witness :
    Multisig.sign cw [] (Keypair.mk 1 1) [(1, none)] = (.ok (), [(1, some 1)])
      ∧ Multisig.sign cw [] (Keypair.mk 1 1) [(1, some 1)]
          = (.ok (), [(1, some 1)]) :=
  ⟨rfl,
   (c8_sign_idempotent_never_overwrites cw [] (Keypair.mk 1 1) [(1, none)]).1
     [(1, some 1)] rfl⟩

/-- Claim C9: signing with a key pair whose public key matches no binding
of the message fails with `PublicKeyNotFound` ("KeyNotAssigned" in the
spec) and leaves every binding unchanged. -/
theorem c9_unassigned_key_rejected (c : Crypto) (content : List Nat)
    (kp : Keypair) (m : Multisig)
    (h : ∀ b ∈ m, b.1 ≠ kp.public_key) :
    Multisig.sign c content kp m = (.error .publicKeyNotFound, m) :=
  Multisig.sign_not_assigned c content kp m h

/-- Witness for C9 at a concrete input. -/
theorem c9_witness :
    (∀ b ∈ ([(2, some 5)] : Multisig), b.1 ≠ (Keypair.mk 1 1).public_key)
      ∧ Multisig.sign cw [] (Keypair.mk 1 1) [(2, some 5)]
          = (.error .publicKeyNotFound, [(2, some 5)]) :=
  ⟨by decide,
   c9_unassigned_key_rejected cw [] (Keypair.mk 1 1) [(2, some 5)] (by decide)⟩

/-- Claim C10: when a key occurs both at position `i` and at a later
position `j` of the creation key list, each occurrence gets its own
binding, but the binding at `j` starts unsigned and stays unsigned across
any sequence of sign calls, because `Multisig::sign` only ever fills the
first binding whose key matches. -/
theorem c10_later_duplicate_unreachable (pubkeys : List PublicKey)
    (i j : Nat) (hij : i < j) (hj : j < pubkeys.length)
    (heq : pubkeys.get ⟨i, Nat.lt_trans hij hj⟩ = pubkeys.get ⟨j, hj⟩)
    (c : Crypto) (calls : List (List Nat × Keypair)) :
    (Multisig.new pubkeys)[j]? = some (pubkeys.get ⟨j, hj⟩, none)
      ∧ (Multisig.signAll c calls (Multisig.new pubkeys))[j]?
          = some (pubkeys.get ⟨j, hj⟩, none) := by
  have hnew : ∀ (n : Nat) (hn : n < pubkeys.length),
      (Multisig.new pubkeys)[n]? = some (pubkeys.get ⟨n, hn⟩, none) := by
    intro n hn
    simp [Multisig.new, List.getElem?_eq_getElem,
      List.getElem?_eq_getElem hn]
  have hi' : (Multisig.new pubkeys)[i]? = some (pubkeys.get ⟨j, hj⟩, none) := by
    rw [hnew i (Nat.lt_trans hij hj), heq]
  have hj' := hnew j hj
  exact ⟨hj',
    Multisig.signAll_later_dup c calls (Multisig.new pubkeys) i j _ none hij
      hi' hj'⟩

/-- Witness for C10: key 5 occurs twice; after a sign call with its key
pair, the second binding is still unsigned. -/
theorem c10_witness :
    (Multisig.signAll cw [([], Keypair.mk 5 5)] (Multisig.new [5, 5]))[1]?
        = some (5, none) :=
  (c10_later_duplicate_unreachable [5, 5] 0 1 (by decide) (by decide) rfl cw
    [([], Keypair.mk 5 5)]).2

/-- Claim C7: when fewer signatures are present than required,
`Multisig::verify` fails with `NotEnoughSignatures(present, required)` and
its result is independent of the cryptographic backend (no cryptographic
validation is performed); otherwise it succeeds when every present pair
verifies, and returns the underlying cryptographic error of the first
invalid pair. -/
theorem c7_verify_quorum_then_first_error (c c2 : Crypto) (content : List Nat)
    (req : Nat) (m : Multisig) :
    ((Multisig.presentSignatures m).length < req →
        Multisig.verify c content req m
            = .error (.notEnoughSignatures
                (Multisig.presentSignatures m).length req)
          ∧ Multisig.verify c content req m = Multisig.verify c2 content req m)
      ∧ (req ≤ (Multisig.presentSignatures m).length →
          ((∀ p ∈ Multisig.presentSignatures m,
              crypto.verify c content p.2 p.1 = .ok ()) →
            Multisig.verify c content req m = .ok ())
          ∧ ∀ (i : Nat) (hi : i < (Multisig.presentSignatures m).length)
              (e : SecpError),
              (∀ (j : Nat) (hj : j < i),
                crypto.verify c content
                    ((Multisig.presentSignatures m).get ⟨j, Nat.lt_trans hj hi⟩).2
                    ((Multisig.presentSignatures m).get ⟨j, Nat.lt_trans hj hi⟩).1
                  = .ok ()) →
              crypto.verify c content
                  ((Multisig.presentSignatures m).get ⟨i, hi⟩).2
                  ((Multisig.presentSignatures m).get ⟨i, hi⟩).1 = .error e →
              Multisig.verify c content req m = .error (.secp256k1 e)) := by
  constructor
  · intro h
    rw [Multisig.verify_eq, Multisig.verify_eq, if_pos h, if_pos h]
    exact ⟨rfl, rfl⟩
  · intro h
    have hn : ¬ (Multisig.presentSignatures m).length < req := Nat.not_lt.mpr h
    constructor
    · intro hall
      rw [Multisig.verify_eq, if_neg hn]
      exact Multisig.checkAll_ok c content _ hall
    · intro i hi e hprev herr
      rw [Multisig.verify_eq, if_neg hn]
      exact Multisig.checkAll_first_error c content _ i hi e hprev herr

/-- Witness for C7: one present signature against a required count of 2
fails with `NotEnoughSignatures(1, 2)`. -/
theorem c7_witness :
    (Multisig.presentSignatures [(1, some 2)]).length < 2
      ∧ Multisig.verify cw [] 2 [(1, some 2)]
          = .error (.notEnoughSignatures 1 2) :=
  ⟨by decide,
   ((c7_verify_quorum_then_first_error cw cw [] 2 [(1, some 2)]).1
     (by decide)).1⟩

/-- Claim C1 counterexample: for a message with 3 keys and requested count
`Some 2`, the stored required count is `max 2 3 = 3`, so after valid
signatures from keys 1 and 2 only, `verify` on the stored count fails with
`NotEnoughSignatures(2, 3)` instead of succeeding. -/
theorem c1_counterexample :
    (Message.new 0 [] [1, 2, 3] (some 2)).count_required = 3
      ∧ Multisig.verify cw []
          (Message.new 0 [] [1, 2, 3] (some 2)).count_required
          ((Multisig.sign cw [] (Keypair.mk 2 2)
            ((Multisig.sign cw [] (Keypair.mk 1 1)
              (Message.new 0 [] [1, 2, 3] (some 2)).signature).2)).2)
          = .error (.notEnoughSignatures 2 3)
      ∧ Multisig.verify cw []
          (Message.new 0 [] [1, 2, 3] (some 2)).count_required
          ((Multisig.sign cw [] (Keypair.mk 2 2)
            ((Multisig.sign cw [] (Keypair.mk 1 1)
              (Message.new 0 [] [1, 2, 3] (some 2)).signature).2)).2)
          ≠ .ok () :=
  ⟨rfl, rfl, fun hcontra => Except.noConfusion hcontra⟩

/-- Claim C1 (amended): in the 3-key scenario with requested count
`Some 2`, the stored required count is 3, so after signing with keys 1 and
2 (both signatures valid) `verify` on the stored count fails with
`NotEnoughSignatures(2, 3)` while `verify` with the requested count 2
succeeds; and signing with a 4th, unassigned key pair fails with
`PublicKeyNotFound` ("KeyNotAssigned") leaving the state unchanged. -/
theorem c1_end_to_end_amended (c : Crypto) (pk1 pk2 pk3 pk4 sk1 sk2 sk4 : Nat)
    (content : List Nat) (id : Nat) (s1 s2 : Sig)
    (h12 : pk1 ≠ pk2) (h13 : pk1 ≠ pk3) (h23 : pk2 ≠ pk3)
    (h41 : pk4 ≠ pk1) (h42 : pk4 ≠ pk2) (h43 : pk4 ≠ pk3)
    (hs1 : crypto.sign c content sk1 = .ok s1)
    (hs2 : crypto.sign c content sk2 = .ok s2)
    (hv1 : crypto.verify c content s1 pk1 = .ok ())
    (hv2 : crypto.verify c content s2 pk2 = .ok ()) :
    (Message.new id content [pk1, pk2, pk3] (some 2)).count_required = 3
      ∧ Multisig.sign c content (Keypair.mk pk1 sk1)
          (Message.new id content [pk1, pk2, pk3] (some 2)).signature
          = (.ok (), [(pk1, some s1), (pk2, none), (pk3, none)])
      ∧ Multisig.sign c content (Keypair.mk pk2 sk2)
          [(pk1, some s1), (pk2, none), (pk3, none)]
          = (.ok (), [(pk1, some s1), (pk2, some s2), (pk3, none)])
      ∧ Multisig.verify c content 3
          [(pk1, some s1), (pk2, some s2), (pk3, none)]
          = .error (.notEnoughSignatures 2 3)
      ∧ Multisig.verify c content 2
          [(pk1, some s1), (pk2, some s2), (pk3, none)]
          = .ok ()
      ∧ Multisig.sign c content (Keypair.mk pk4 sk4)
          [(pk1, some s1), (pk2, some s2), (pk3, none)]
          = (.error .publicKeyNotFound,
             [(pk1, some s1), (pk2, some s2), (pk3, none)]) := by
  refine ⟨rfl, ?_, ?_, ?_, ?_, ?_⟩
  · simp [Message.new, Multisig.new, Multisig.sign, hs1]
  · simp [Multisig.sign, h12, hs2]
  · rfl
  · have hn : ¬ (Multisig.presentSignatures
        [(pk1, some s1), (pk2, some s2), (pk3, none)]).length < 2 := by
      have hlen : (Multisig.presentSignatures
          [(pk1, some s1), (pk2, some s2), (pk3, none)]).length = 2 := rfl
      omega
    rw [Multisig.verify_eq, if_neg hn]
    have hp : Multisig.presentSignatures
        [(pk1, some s1), (pk2, some s2), (pk3, none)]
        = [(pk1, s1), (pk2, s2)] := rfl
    rw [hp]
    simp [Multisig.checkAll, hv1, hv2]
  · apply Multisig.sign_not_assigned
    intro b hb
    simp only [List.mem_cons, List.not_mem_nil, or_false] at hb
    rcases hb with hb | hb | hb <;> rw [hb] <;> simpa using (by omega : ¬ _ = pk4)

/-- Witness for C1 (amended) at a concrete input: keys 1, 2, 3, unassigned
key 4, with the concrete backend. -/
theorem c1_witness :
    (Message.new 0 [] [1, 2, 3] (some 2)).count_required = 3
      ∧ Multisig.verify cw [] 2 [(1, some 1), (2, some 2), (3, none)] = .ok ()
      ∧ Multisig.sign cw [] (Keypair.mk 4 4)
          [(1, some 1), (2, some 2), (3, none)]
          = (.error .publicKeyNotFound,
             [(1, some 1), (2, some 2), (3, none)]) := by
  have h := c1_end_to_end_amended cw 1 2 3 4 1 2 4 [] 0 1 2
    (by decide) (by decide) (by decide) (by decide) (by decide) (by decide)
    rfl rfl rfl rfl
  exact ⟨h.1, h.2.2.2.2.1, h.2.2.2.2.2⟩

/-! Base-conversion lemmas for the base58 codec. -/

/-- The big-endian accumulator loop computes `Nat.ofDigits` of the reversed
digit string. -/
theorem beVal_foldl (b : Nat) :
    ∀ (l : List Nat) (acc : Nat),
      l.foldl (fun a d => a * b + d) acc
        = acc * b ^ l.length + Nat.ofDigits b l.reverse := by
  intro l
  induction l with
  | nil => intro acc; simp [Nat.ofDigits_nil]
  | cons d t ih =>
    intro acc
    have hstep : (d :: t).foldl (fun a d => a * b + d) acc
        = t.foldl (fun a d => a * b + d) (acc * b + d) := rfl
    rw [hstep, ih, List.reverse_cons, Nat.ofDigits_append]
    simp only [Nat.ofDigits_singleton, List.length_reverse, Nat.cast_id,
      List.length_cons, pow_succ]
    ring

/-- Lemma: `beVal` is `Nat.ofDigits` of the reversed digit string. -/
theorem beVal_eq_ofDigits (b : Nat) (l : List Nat) :
    beVal b l = Nat.ofDigits b l.reverse := by
  have h := beVal_foldl b l 0
  simpa [beVal] using h

/-- With enough fuel, `digitsFuel` computes `Nat.digits`. -/
theorem digitsFuel_eq_digits {b : Nat} (hb : 1 < b) :
    ∀ (fuel n : Nat), n ≤ fuel → digitsFuel b fuel n = Nat.digits b n := by
  intro fuel
  induction fuel with
  | zero =>
    intro n hn
    have h0 : n = 0 := Nat.le_zero.mp hn
    subst h0
    simp [digitsFuel]
  | succ fuel ih =>
    intro n hn
    by_cases h0 : n = 0
    · subst h0; simp [digitsFuel]
    · have hpos : 0 < n := Nat.pos_of_ne_zero h0
      simp only [digitsFuel, if_neg h0]
      rw [Nat.digits_def' hb hpos]
      congr 1
      refine ih (n / b) ?_
      have hdiv : n / b < n := Nat.div_lt_self hpos hb
      omega

/-- Lemma: `natToBE` is the reversed `Nat.digits` expansion. -/
theorem natToBE_eq_digits {b : Nat} (hb : 1 < b) (n : Nat) :
    natToBE b n = (Nat.digits b n).reverse := by
  unfold natToBE
  rw [digitsFuel_eq_digits hb n n (le_refl n)]

/-- Every digit produced by `natToBE` is below the base. -/
theorem natToBE_lt {b : Nat} (hb : 1 < b) (n : Nat) :
    ∀ d ∈ natToBE b n, d < b := by
  intro d hd
  rw [natToBE_eq_digits hb] at hd
  exact Nat.digits_lt_base hb (List.mem_reverse.mp hd)

/-- Lemma: `natToBE` has no leading zero. -/
theorem natToBE_head_ne_zero {b : Nat} (hb : 1 < b) (n : Nat) :
    ∀ h : natToBE b n ≠ [], (natToBE b n).head h ≠ 0 := by
  rw [natToBE_eq_digits hb]
  intro h
  have hn : n ≠ 0 := by
    intro h0
    rw [h0] at h
    simp at h
  rw [List.head_reverse]
  exact Nat.getLast_digit_ne_zero b hn

/-- Decoding inverts encoding on each base-58 digit. -/
theorem b58Digit_b58Char : ∀ d, d < 58 → b58Digit (b58Char d) = some d := by
  decide

/-- Only the digit 0 encodes to the character '1'. -/
theorem b58Char_ne_one : ∀ d, d < 58 → d ≠ 0 → b58Char d ≠ '1' := by
  decide

/-- Dropping the length of the `takeWhile` prefix is `dropWhile`. -/
theorem drop_length_takeWhile {α : Type} (p : α → Bool) :
    ∀ l : List α, l.drop (l.takeWhile p).length = l.dropWhile p := by
  intro l
  induction l with
  | nil => rfl
  | cons a t ih =>
    cases h : p a with
    | true => simp [List.takeWhile_cons, List.dropWhile_cons, h, ih]
    | false => simp [List.takeWhile_cons, List.dropWhile_cons, h]

/-- Lemma: `natToBE` inverts `beVal` on byte strings without leading zeros. -/
theorem natToBE_beVal {b : Nat} (hb : 1 < b) (l : List Nat)
    (hlt : ∀ x ∈ l, x < b) (hhead : ∀ h : l ≠ [], l.head h ≠ 0) :
    natToBE b (beVal b l) = l := by
  have hof : Nat.digits b (Nat.ofDigits b l.reverse) = l.reverse := by
    apply Nat.digits_ofDigits b hb
    · intro x hx
      exact hlt x (List.mem_reverse.mp hx)
    · intro h
      have hl : l ≠ [] := by simpa using h
      rw [List.getLast_reverse]
      exact hhead hl
  rw [beVal_eq_ofDigits, natToBE_eq_digits hb, hof, List.reverse_reverse]

/-- Lemma: the `head?` form of `natToBE_head_ne_zero`. -/
theorem natToBE_head?_ne_zero {b : Nat} (hb : 1 < b) (n d : Nat)
    (hd : (natToBE b n).head? = some d) : d ≠ 0 := by
  have hne : natToBE b n ≠ [] := by
    intro h0
    rw [h0] at hd
    simp at hd
  have hh := natToBE_head_ne_zero hb n hne
  have h1 : (natToBE b n).head? = some ((natToBE b n).head hne) :=
    List.head?_eq_head hne
  rw [h1] at hd
  have h2 : (natToBE b n).head hne = d := by
    simpa using hd
  exact h2 ▸ hh

/-- Round trip of the `base58` crate: decoding an encoded byte string (of
at most the decoder's 132-byte capacity) recovers it exactly. -/
theorem from_to_base58 (bytes : List Nat) (hb : ∀ x ∈ bytes, x < 256)
    (hlen : bytes.length ≤ 132) :
    from_base58 (to_base58 bytes) = some bytes := by
  have hdrop : bytes.drop (bytes.takeWhile (fun x => x = 0)).length
      = bytes.dropWhile (fun x => x = 0) := drop_length_takeWhile _ bytes
  have henc : to_base58 bytes
      = List.replicate (bytes.takeWhile (fun x => x = 0)).length '1'
        ++ (natToBE 58
            (beVal 256 (bytes.dropWhile (fun x => x = 0)))).map b58Char := by
    simp only [to_base58]
    rw [hdrop]
  have hr_lt : ∀ x ∈ bytes.dropWhile (fun x => x = 0), x < 256 := by
    intro x hx
    exact hb x ((List.dropWhile_suffix _).subset hx)
  have hr_head : ∀ h : bytes.dropWhile (fun x => x = 0) ≠ [],
      (bytes.dropWhile (fun x => x = 0)).head h ≠ 0 := by
    intro h
    have hfalse := List.head_dropWhile_not (fun x => decide (x = 0)) bytes h
    simpa using hfalse
  have hback : natToBE 256 (beVal 256 (bytes.dropWhile (fun x => x = 0)))
      = bytes.dropWhile (fun x => x = 0) :=
    natToBE_beVal (by norm_num) _ hr_lt hr_head
  have hvalid : (to_base58 bytes).all (fun ch => (b58Digit ch).isSome) = true := by
    rw [henc, List.all_eq_true]
    intro ch hch
    rcases List.mem_append.mp hch with h1 | h2
    · have h1' : ch = '1' := List.eq_of_mem_replicate h1
      subst h1'
      decide
    · obtain ⟨d, hd, rfl⟩ := List.mem_map.mp h2
      have hd58 : d < 58 := natToBE_lt (by norm_num) _ d hd
      simp [b58Digit_b58Char d hd58]
  have htail : (List.map b58Char
      (natToBE 58 (beVal 256 (bytes.dropWhile (fun x => x = 0))))).takeWhile
        (fun ch => ch = '1') = [] := by
    cases hcase : natToBE 58 (beVal 256 (bytes.dropWhile (fun x => x = 0))) with
    | nil => simp
    | cons d0 rest =>
      have hd0mem : d0 ∈ natToBE 58 (beVal 256 (bytes.dropWhile (fun x => x = 0))) := by
        rw [hcase]
        exact List.mem_cons_self _ _
      have h58 : d0 < 58 := natToBE_lt (by norm_num) _ d0 hd0mem
      have hne0 : d0 ≠ 0 := natToBE_head?_ne_zero (b := 58) (by norm_num) _ d0
        (by rw [hcase]; rfl)
      have hchar : b58Char d0 ≠ '1' := b58Char_ne_one d0 h58 hne0
      simp [List.takeWhile_cons, hchar]
  have hztake : (to_base58 bytes).takeWhile (fun ch => ch = '1')
      = List.replicate (bytes.takeWhile (fun x => x = 0)).length '1' := by
    rw [henc,
      List.takeWhile_append_of_pos
        (by intro a ha; simp [List.eq_of_mem_replicate ha]),
      htail, List.append_nil]
  have hdropk : (to_base58 bytes).drop (bytes.takeWhile (fun x => x = 0)).length
      = List.map b58Char
          (natToBE 58 (beVal 256 (bytes.dropWhile (fun x => x = 0)))) := by
    rw [henc]
    exact List.drop_left' (by simp)
  have hmapback : (List.map b58Char
        (natToBE 58 (beVal 256 (bytes.dropWhile (fun x => x = 0))))).map
          (fun ch => (b58Digit ch).getD 0)
      = natToBE 58 (beVal 256 (bytes.dropWhile (fun x => x = 0))) := by
    rw [List.map_map]
    have hcong : ∀ d ∈ natToBE 58 (beVal 256 (bytes.dropWhile (fun x => x = 0))),
        ((fun ch => (b58Digit ch).getD 0) ∘ b58Char) d = id d := by
      intro d hd
      have h58 : d < 58 := natToBE_lt (by norm_num) _ d hd
      simp [Function.comp, b58Digit_b58Char d h58]
    rw [List.map_congr_left hcong, List.map_id]
  have hval : beVal 58 (natToBE 58 (beVal 256 (bytes.dropWhile (fun x => x = 0))))
      = beVal 256 (bytes.dropWhile (fun x => x = 0)) := by
    rw [beVal_eq_ofDigits, natToBE_eq_digits (by norm_num),
      List.reverse_reverse, Nat.ofDigits_digits]
  have hbound : ¬ 256 ^ 132 ≤ beVal 256 (bytes.dropWhile (fun x => x = 0)) := by
    have h1 : beVal 256 (bytes.dropWhile (fun x => x = 0))
        < 256 ^ (bytes.dropWhile (fun x => x = 0)).reverse.length := by
      rw [beVal_eq_ofDigits]
      exact Nat.ofDigits_lt_base_pow_length (by norm_num)
        (fun x hx => hr_lt x (List.mem_reverse.mp hx))
    have h2 : (bytes.dropWhile (fun x => x = 0)).reverse.length ≤ 132 := by
      rw [List.length_reverse]
      calc (bytes.dropWhile (fun x => x = 0)).length
          ≤ bytes.length := (List.dropWhile_suffix _).sublist.length_le
        _ ≤ 132 := hlen
    have h3 : (256 : Nat) ^ (bytes.dropWhile (fun x => x = 0)).reverse.length
        ≤ 256 ^ 132 := Nat.pow_le_pow_right (by norm_num) h2
    omega
  have hz_repl : bytes.takeWhile (fun x => x = 0)
      = List.replicate (bytes.takeWhile (fun x => x = 0)).length 0 := by
    rw [List.eq_replicate_iff]
    exact ⟨rfl, fun y hy => by simpa using List.mem_takeWhile_imp hy⟩
  simp only [from_base58]
  rw [if_pos hvalid, hztake, List.length_replicate, hdropk, hmapback, hval,
    if_neg hbound, hback, ← hz_repl, List.takeWhile_append_dropWhile]

/-- Unfolding of `pkh_from_bt_addr` after a successful base58 decode. -/
theorem pkh_of_decoded (sha256 : List Nat → List Nat) (address : List Char)
    (d : List Nat) (h : from_base58 address = some d) :
    pkh_from_bt_addr sha256 address
      = if d.length ≠ 25 then .error .invalidLength
        else if d.headI ≠ 0 then .error .unsupportedVersion
        else if d.drop 21 ≠ (sha256 (sha256 (d.take 21))).take 4 then
          .error .checksumMismatch
        else .ok ((d.drop 1).take 20) := by
  unfold pkh_from_bt_addr
  rw [h]

/-- Claim C6: address decoding applies its checks in the strict order
base58 decode, length = 25, version byte = 0, checksum, failing with
`invalidEncoding`, `invalidLength`, `unsupportedVersion`,
`checksumMismatch` respectively (the first failing check determines the
error), and on success returns bytes 1..21, the 20-byte key hash. -/
theorem c6_decode_check_order (sha256 : List Nat → List Nat)
    (address : List Char) :
    (from_base58 address = none →
        pkh_from_bt_addr sha256 address = .error .invalidEncoding)
      ∧ (∀ d, from_base58 address = some d → d.length ≠ 25 →
          pkh_from_bt_addr sha256 address = .error .invalidLength)
      ∧ (∀ d, from_base58 address = some d → d.length = 25 → d.headI ≠ 0 →
          pkh_from_bt_addr sha256 address = .error .unsupportedVersion)
      ∧ (∀ d, from_base58 address = some d → d.length = 25 → d.headI = 0 →
          d.drop 21 ≠ (sha256 (sha256 (d.take 21))).take 4 →
          pkh_from_bt_addr sha256 address = .error .checksumMismatch)
      ∧ (∀ d, from_base58 address = some d → d.length = 25 → d.headI = 0 →
          d.drop 21 = (sha256 (sha256 (d.take 21))).take 4 →
          pkh_from_bt_addr sha256 address = .ok ((d.drop 1).take 20)) := by
  refine ⟨?_, ?_, ?_, ?_, ?_⟩
  · intro h
    unfold pkh_from_bt_addr
    rw [h]
  · intro d h hlen
    rw [pkh_of_decoded sha256 address d h, if_pos hlen]
  · intro d h hlen hv
    rw [pkh_of_decoded sha256 address d h, if_neg (by simp [hlen]),
      if_pos hv]
  · intro d h hlen hv hcs
    rw [pkh_of_decoded sha256 address d h, if_neg (by simp [hlen]),
      if_neg (by simp [hv]), if_pos hcs]
  · intro d h hlen hv hcs
    rw [pkh_of_decoded sha256 address d h, if_neg (by simp [hlen]),
      if_neg (by simp [hv]), if_neg (by simp [hcs])]

/-- Witness for C6: the character '0' is outside the base58 alphabet, so
decoding fails with `invalidEncoding`. -/
theorem c6_witness :
    from_base58 [Char.ofNat 48] = none
      ∧ pkh_from_bt_addr (fun _ => []) [Char.ofNat 48]
          = .error .invalidEncoding := by
  have h : from_base58 [Char.ofNat 48] = none := by decide
  exact ⟨h, (c6_decode_check_order (fun _ => []) [Char.ofNat 48]).1 h⟩

/-- Claim C5: encoding a public key into an address always succeeds (it is
a total, deterministic function of the key), and decoding the encoded
address succeeds and returns exactly the 20-byte hash160 of the key's
compressed serialization. The hashes are abstract functions producing
byte strings of the real output lengths (20 for hash160, 32 for SHA-256). -/
theorem c5_address_roundtrip (hash160 sha256 : List Nat → List Nat)
    (pk : List Nat)
    (h160len : (hash160 pk).length = 20)
    (h160lt : ∀ x ∈ hash160 pk, x < 256)
    (hshalen : ∀ s : List Nat, (sha256 s).length = 32)
    (hshalt : ∀ s : List Nat, ∀ x ∈ sha256 s, x < 256) :
    pkh_from_bt_addr sha256 (bt_addr_from_pk hash160 sha256 pk)
      = .ok (hash160 pk) := by
  have hck_len : ((sha256 (sha256 (0 :: hash160 pk))).take 4).length = 4 := by
    simp [List.length_take, hshalen]
  have haddr : bt_addr_from_pk hash160 sha256 pk
      = to_base58 ((0 :: hash160 pk)
          ++ (sha256 (sha256 (0 :: hash160 pk))).take 4) := rfl
  have hbuf_len : ((0 :: hash160 pk)
      ++ (sha256 (sha256 (0 :: hash160 pk))).take 4).length = 25 := by
    rw [List.length_append, List.length_cons, h160len, hck_len]
  have hbuf_lt : ∀ x ∈ (0 :: hash160 pk)
      ++ (sha256 (sha256 (0 :: hash160 pk))).take 4, x < 256 := by
    intro x hx
    rcases List.mem_append.mp hx with h1 | h2
    · rcases List.mem_cons.mp h1 with rfl | h1'
      · norm_num
      · exact h160lt x h1'
    · exact hshalt _ x (List.mem_of_mem_take h2)
  have hrt := from_to_base58
    ((0 :: hash160 pk) ++ (sha256 (sha256 (0 :: hash160 pk))).take 4)
    hbuf_lt (by rw [hbuf_len]; norm_num)
  rw [haddr, pkh_of_decoded sha256 _ _ hrt]
  have hne25 : ¬ ((0 :: hash160 pk)
      ++ (sha256 (sha256 (0 :: hash160 pk))).take 4).length ≠ 25 := by
    rw [hbuf_len]
    simp
  rw [if_neg hne25]
  have hhead : ((0 :: hash160 pk)
      ++ (sha256 (sha256 (0 :: hash160 pk))).take 4).headI = 0 := rfl
  rw [if_neg (by simp [hhead])]
  have htake21 : ((0 :: hash160 pk)
      ++ (sha256 (sha256 (0 :: hash160 pk))).take 4).take 21
      = 0 :: hash160 pk :=
    List.take_left' (by simp [h160len])
  have hdrop21 : ((0 :: hash160 pk)
      ++ (sha256 (sha256 (0 :: hash160 pk))).take 4).drop 21
      = (sha256 (sha256 (0 :: hash160 pk))).take 4 :=
    List.drop_left' (by simp [h160len])
  rw [if_neg (by rw [hdrop21, htake21]; simp)]
  have hdrop1 : ((0 :: hash160 pk)
      ++ (sha256 (sha256 (0 :: hash160 pk))).take 4).drop 1
      = hash160 pk ++ (sha256 (sha256 (0 :: hash160 pk))).take 4 := rfl
  rw [hdrop1, List.take_left' h160len]

/-- Witness for C5 at concrete hash functions and key bytes. -/
theorem c5_witness :
    ((fun _ : List Nat => List.replicate 20 0) ([] : List Nat)).length = 20
      ∧ pkh_from_bt_addr (fun _ => List.replicate 32 0)
          (bt_addr_from_pk (fun _ => List.replicate 20 0)
            (fun _ => List.replicate 32 0) [])
          = .ok (List.replicate 20 0) := by
  refine ⟨rfl, ?_⟩
  exact c5_address_roundtrip (fun _ => List.replicate 20 0)
    (fun _ => List.replicate 32 0) [] rfl (by decide) (fun s => rfl)
    (fun s => by
      show ∀ x ∈ List.replicate 32 0, x < 256
      decide)
